import Mathlib

/-!
Verification of the schedule-reconciliation core of the reminders service
(`app/reminders.py`): time normalization (`normalize_time`), row parsing
(`parse_row`), and the refresh cycle (`refresh_schedule`) against a job
registry, plus the poll wrapper that isolates cycle failures.

Shallow embedding notes:
* Python strings are modelled as Lean `String` / `List Char`.
* Python's regex class `\d` is modelled as ASCII digits (`Char.isDigit`) and
  `\s` as the ASCII whitespace characters; the rows under study only use
  ASCII digits and spaces.
* `str.upper` / `str.lower` are modelled on the ASCII and Russian (Cyrillic)
  ranges actually occurring in the program's constants.
-/

namespace Reminders

/-- ASCII whitespace, modelling Python's `\s` / `str.strip` character class. -/
def pyIsSpace (c : Char) : Bool :=
  c == ' ' || c == '\t' || c == '\n' || c == '\r' || c == '\x0b' || c == '\x0c'

/-- `str.strip()` on a character list: drop whitespace from both ends. -/
def pyStrip (l : List Char) : List Char :=
  ((l.dropWhile pyIsSpace).reverse.dropWhile pyIsSpace).reverse

/-- `str.strip()` on a `String`. -/
def pyStripS (s : String) : String :=
  ⟨pyStrip s.data⟩

/-- `str.upper()` on one character (ASCII letters and the Cyrillic range used
by the program's constants; other characters are unchanged). -/
def pyUpperChar (c : Char) : Char :=
  if 'a' ≤ c ∧ c ≤ 'z' then Char.ofNat (c.toNat - 32)
  else if 'а' ≤ c ∧ c ≤ 'я' then Char.ofNat (c.toNat - 32)
  else if c = 'ё' then 'Ё'
  else c

/-- `str.lower()` on one character (ASCII letters and the Cyrillic range used
by the program's constants; other characters are unchanged). -/
def pyLowerChar (c : Char) : Char :=
  if 'A' ≤ c ∧ c ≤ 'Z' then Char.ofNat (c.toNat + 32)
  else if 'А' ≤ c ∧ c ≤ 'Я' then Char.ofNat (c.toNat + 32)
  else if c = 'Ё' then 'ё'
  else c

/-- `str.upper()` on a `String`. -/
def pyUpper (s : String) : String :=
  ⟨s.data.map pyUpperChar⟩

/-- `str.lower()` on a `String`. -/
def pyLower (s : String) : String :=
  ⟨s.data.map pyLowerChar⟩

/-- Value of a run of decimal digit characters (`int(...)` on the capture). -/
def digitsVal (l : List Char) : Nat :=
  l.foldl (fun a c => 10 * a + (c.toNat - 48)) 0

/-- The regex `^(\d{1,2}):(\d{1,2})(?::\d{1,2})?$` of `normalize_time`,
returning the two captured groups' values.  The digit groups are maximal
runs: with at most two digits allowed and a following `:`/end required,
backtracking cannot split a longer run, so matching is deterministic. -/
def matchHMS (t : List Char) : Option (Nat × Nat) :=
  let a := t.takeWhile Char.isDigit
  let r1 := t.dropWhile Char.isDigit
  if a.length = 0 ∨ a.length > 2 then none
  else
    match r1 with
    | [] => none
    | c1 :: r2 =>
      if c1 = ':' then
        let b := r2.takeWhile Char.isDigit
        let r3 := r2.dropWhile Char.isDigit
        if b.length = 0 ∨ b.length > 2 then none
        else
          match r3 with
          | [] => some (digitsVal a, digitsVal b)
          | c2 :: r4 =>
            if c2 = ':' then
              let c := r4.takeWhile Char.isDigit
              let r5 := r4.dropWhile Char.isDigit
              if 1 ≤ c.length ∧ c.length ≤ 2 ∧ r5 = [] then
                some (digitsVal a, digitsVal b)
              else none
            else none
      else none

/-- The regex `^\s*(\d{1,2})\s*[:\.\-\s]\s*(\d{1,2})\s*$` of `normalize_time`
(the input is already stripped, so the outer `\s*` are vacuous).  A match
forces group 1 to be the maximal leading digit run, group 2 the maximal
trailing digit run, and the middle to be whitespace around one separator
character (itself possibly whitespace). -/
def matchSep (t : List Char) : Option (Nat × Nat) :=
  let a := t.takeWhile Char.isDigit
  let r := t.dropWhile Char.isDigit
  if a.length = 0 ∨ a.length > 2 then none
  else
    let b := (r.reverse.takeWhile Char.isDigit).reverse
    let m := r.take (r.length - b.length)
    if b.length = 0 ∨ b.length > 2 then none
    else
      match m.filter (fun c => !(pyIsSpace c)) with
      | [] => if m.length = 0 then none else some (digitsVal a, digitsVal b)
      | c :: rest =>
        if rest = [] then
          if c = ':' ∨ c = '.' ∨ c = '-' then some (digitsVal a, digitsVal b)
          else none
        else none

/-- The regex `^\s*(\d{1,2})\s*$` of `normalize_time` (bare hours). -/
def matchBare (t : List Char) : Option Nat :=
  let a := t.takeWhile Char.isDigit
  let r := t.dropWhile Char.isDigit
  if 1 ≤ a.length ∧ a.length ≤ 2 ∧ r = [] then some (digitsVal a) else none

/-- `normalize_time` from `app/reminders.py`: strip the input, then try the
three patterns in order; each pattern's structural match is followed by the
range check `0 <= h <= 23 and 0 <= mm <= 59` (the lower bounds are vacuous
over `Nat`), falling through to the next pattern when either the match or
the check fails. -/
def normalize_time (s : String) : Option (Nat × Nat) :=
  let t := pyStrip s.data
  let s1 :=
    match matchHMS t with
    | some (h, mm) => if h ≤ 23 ∧ mm ≤ 59 then some (h, mm) else none
    | none => none
  match s1 with
  | some r => some r
  | none =>
    let s2 :=
      match matchSep t with
      | some (h, mm) => if h ≤ 23 ∧ mm ≤ 59 then some (h, mm) else none
      | none => none
    match s2 with
    | some r => some r
    | none =>
      match matchBare t with
      | some h => if h ≤ 23 then some (h, 0) else none
      | none => none

/-- `extract_first_digits` from `app/reminders.py`: the first maximal run of
digits (regex `\d+`), as a number. -/
def extract_first_digits (s : String) : Option Nat :=
  let l := s.data.dropWhile (fun c => !c.isDigit)
  match l.takeWhile Char.isDigit with
  | [] => none
  | ds => some (digitsVal ds)

/-- The weekday dictionary `WEEKDAY_MAP` of `app/reminders.py`: full and
abbreviated Russian weekday names, Monday = 0. -/
def WEEKDAY_MAP : List (String × Nat) :=
  [("понедельник", 0), ("вторник", 1), ("среда", 2), ("четверг", 3),
   ("пятница", 4), ("суббота", 5), ("воскресенье", 6),
   ("пн", 0), ("вт", 1), ("ср", 2), ("чт", 3), ("пт", 4), ("сб", 5), ("вс", 6)]

/-- The truthy status tuple `("TRUE", "1", "ДА", "TRUE✓")` of `parse_row`. -/
def TRUTHY : List String := ["TRUE", "1", "ДА", "TRUE✓"]

/-- The three job dictionary shapes built by `parse_row` (`type` field
`"daily"`/`"weekly"`/`"monthly"`, with `dow` only on weekly and `dom` only
on monthly jobs). -/
inductive Job where
  | daily (key message : String) (hour minute : Nat)
  | weekly (key message : String) (dow hour minute : Nat)
  | monthly (key message : String) (dom hour minute : Nat)
deriving DecidableEq, Repr

/-- The `key` field of a job dictionary. -/
def Job.key : Job → String
  | .daily k _ _ _ => k
  | .weekly k _ _ _ _ => k
  | .monthly k _ _ _ _ => k

/-- The structured content of the `_warn` log records emitted by `parse_row`
(one per rejected row: row index plus reason, with the offending raw text). -/
inductive Reason where
  | emptyMessage
  | badTime (raw : String)
  | badWeekday (raw : String)
  | badDom (raw : String)
  | unknownPeriod (raw : String)
deriving DecidableEq, Repr

/-- The job key `f"row-{idx}"`. -/
def rowKey (idx : Nat) : String := "row-" ++ Nat.repr idx

/-- `parse_row` from `app/reminders.py`.  The result pairs the returned job
(or `none`) with the `_warn` records emitted.  The status gate rejects
silently; every later rejection logs one warning.  `refresh_schedule` always
passes exactly 6 cells, so the catch-all branch (Python would raise
`IndexError` on a shorter list) is never reached from it. -/
def parse_row (idx : Nat) (row : List String) : Option Job × List (Nat × Reason) :=
  match row with
  | [c0, c1, c2, c3, c4, c5] =>
    let status_raw := pyUpper (pyStripS c0)
    if status_raw ∈ TRUTHY then
      let message := pyStripS c1
      let period := pyLower (pyStripS c2)
      let date_raw := pyStripS c3
      let weekday_raw := pyLower (pyStripS c4)
      let time_raw := pyStripS c5
      if message = "" then (none, [(idx, .emptyMessage)])
      else
        match normalize_time time_raw with
        | none => (none, [(idx, .badTime time_raw)])
        | some (hour, minute) =>
          if period = "день" then
            (some (.daily (rowKey idx) message hour minute), [])
          else if period = "неделя" then
            match WEEKDAY_MAP.lookup weekday_raw with
            | none => (none, [(idx, .badWeekday weekday_raw)])
            | some dow => (some (.weekly (rowKey idx) message dow hour minute), [])
          else if period = "месяц" then
            match extract_first_digits date_raw with
            | none => (none, [(idx, .badDom date_raw)])
            | some dom =>
              if 1 ≤ dom ∧ dom ≤ 31 then
                (some (.monthly (rowKey idx) message dom hour minute), [])
              else (none, [(idx, .badDom date_raw)])
          else (none, [(idx, .unknownPeriod period)])
    else (none, [])
  | _ => (none, [])

/-- The row normalization `(row + [""] * 6)[:6]` of `refresh_schedule`. -/
def pad6 (row : List String) : List String :=
  (row ++ List.replicate 6 "").take 6

/-- The scheduler's job store, as a list of `(job id, payload)` entries; row
jobs carry their spec, other jobs (such as the poll-driver's own `sheet-poll`
interval timer) carry `none`. -/
abbrev Registry := List (String × Option Job)

/-- `schedule_job` from `app/reminders.py`: remove any existing job with the
item's key (`get_job` + `remove`, also `replace_existing=True`), then add the
new one. -/
def schedule_job (reg : Registry) (item : Job) : Registry :=
  reg.filter (fun e => e.1 != item.key) ++ [(item.key, some item)]

/-- `job.id.startswith("row-")`: the id's first four characters are `row-`. -/
def isRowKey (k : String) : Bool :=
  match k.data with
  | c1 :: c2 :: c3 :: c4 :: _ => c1 == 'r' && c2 == 'o' && c3 == 'w' && c4 == '-'
  | _ => false

/-- The accepted items of one cycle: each data row (the grid minus its header
row, indexed from 2 as in `enumerate(values[1:], start=2)`) is normalized to
6 cells and parsed; rejected rows are dropped. -/
def accepted_items (values : List (List String)) : List Job :=
  (List.enumFrom 2 (values.drop 1)).filterMap (fun p => (parse_row p.1 (pad6 p.2)).1)

/-- The `active_keys` set of one cycle, as the list of accepted keys. -/
def active_keys (values : List (List String)) : List String :=
  (accepted_items values).map Job.key

/-- `refresh_schedule` from `app/reminders.py`, with the fetched grid as
input: a grid with fewer than 2 rows is a no-op cycle; otherwise every
accepted item is upserted in row order, then every registered job whose id
starts with `row-` but is not among this cycle's accepted keys is removed. -/
def refresh_schedule (values : List (List String)) (reg : Registry) : Registry :=
  if values.length < 2 then reg
  else
    let items := accepted_items values
    let keys := items.map Job.key
    let reg1 := items.foldl schedule_job reg
    reg1.filter (fun e => !(isRowKey e.1 && !(keys.contains e.1)))

/-- The row-source fetch (`get_sheet()` + `ws.get_all_values()`), which either
returns the grid or raises before `refresh_schedule` mutates anything. -/
def refresh_with_fetch (fetch : Except String (List (List String)))
    (reg : Registry) : Except String Registry :=
  match fetch with
  | .error e => .error e
  | .ok values => .ok (refresh_schedule values reg)

/-- The `poll` wrapper of `main` in `app/reminders.py`: any exception from
the refresh cycle is caught and logged, so the registry keeps its prior state
and the wrapper returns normally (the next interval tick still runs). -/
def poll (fetch : Except String (List (List String))) (reg : Registry) : Registry :=
  match refresh_with_fetch fetch reg with
  | .error _ => reg
  | .ok reg2 => reg2

/-- Decimal digit characters of `n`, most significant first: the list
underlying `Nat.repr` (proved below). -/
def decDigits (n : Nat) : List Char :=
  if n < 10 then [Nat.digitChar n]
  else decDigits (n / 10) ++ [Nat.digitChar (n % 10)]
decreasing_by exact Nat.div_lt_self (by omega) (by omega)

example : normalize_time "16:00" = some (16, 0) := by decide
example : normalize_time "16:00:00" = some (16, 0) := by decide
example : normalize_time "16.00" = some (16, 0) := by decide
example : normalize_time "16-00" = some (16, 0) := by decide
example : normalize_time "16 00" = some (16, 0) := by decide
example : normalize_time "16" = some (16, 0) := by decide
example : normalize_time "" = none := by decide
example : normalize_time "24:30" = none := by decide
example : normalize_time "16:60" = none := by decide
example : normalize_time "16:30:99" = some (16, 30) := by decide
example : normalize_time "9:5" = some (9, 5) := by decide
example : normalize_time " 07:45 " = some (7, 45) := by decide
example : extract_first_digits "28." = some 28 := by decide
example : extract_first_digits "" = none := by decide
example : pyUpper "да" = "ДА" := by decide
example : pyLower "ДЕНЬ" = "день" := by decide

example :
    parse_row 2 ["TRUE", "Standup", "день", "", "", "09:30"] =
      (some (.daily "row-2" "Standup" 9 30), []) := by decide

example :
    parse_row 2 ["TRUE", "Sync", "неделя", "", "пн", "14:00"] =
      (some (.weekly "row-2" "Sync" 0 14 0), []) := by decide

example :
    parse_row 2 ["TRUE", "Report", "месяц", "28.", "", "10:00"] =
      (some (.monthly "row-2" "Report" 28 10 0), []) := by decide

example :
    parse_row 2 ["FALSE", "x", "день", "", "", "10:00"] = (none, []) := by decide

example :
    parse_row 2 ["TRUE", "", "день", "", "", "10:00"] =
      (none, [(2, .emptyMessage)]) := by decide

example :
    parse_row 2 ["TRUE", "x", "неделя", "", "froday", "10:00"] =
      (none, [(2, .badWeekday "froday")]) := by decide

example :
    refresh_schedule
      [["s", "m", "p", "d", "w", "t"], ["TRUE", "Standup", "день", "", "", "09:30"]]
      [("sheet-poll", none), ("row-9", some (.daily "row-9" "old" 1 2))] =
      [("sheet-poll", none), ("row-2", some (.daily "row-2" "Standup" 9 30))] := by decide

/-! ### Character-class facts -/

lemma isDigit_not_space {c : Char} (h : c.isDigit = true) : pyIsSpace c = false := by
  by_contra hs
  rw [Bool.not_eq_false] at hs
  simp only [pyIsSpace, Bool.or_eq_true, beq_iff_eq] at hs
  rcases hs with ((((h1 | h1) | h1) | h1) | h1) | h1 <;> subst h1 <;>
    exact absurd h (by decide)

lemma space_not_digit {c : Char} (h : pyIsSpace c = true) : c.isDigit = false := by
  by_contra hd
  rw [Bool.not_eq_false] at hd
  exact absurd h (by rw [isDigit_not_space hd]; decide)

/-! ### `takeWhile`/`dropWhile`/`pyStrip` on decomposed inputs -/

lemma takeWhile_digits_append :
    ∀ (a r : List Char), (∀ c ∈ a, c.isDigit = true) →
      (∀ c, r.head? = some c → c.isDigit = false) →
      (a ++ r).takeWhile Char.isDigit = a := by
  intro a
  induction a with
  | nil =>
    intro r _ hr
    cases r with
    | nil => simp
    | cons x xs => simp [List.takeWhile_cons, hr x rfl]
  | cons d ds ih =>
    intro r ha hr
    have hd : d.isDigit = true := ha d (by simp)
    simp only [List.cons_append, List.takeWhile_cons, hd, if_true]
    rw [ih r (fun c hc => ha c (by simp [hc])) hr]

lemma dropWhile_digits_append :
    ∀ (a r : List Char), (∀ c ∈ a, c.isDigit = true) →
      (∀ c, r.head? = some c → c.isDigit = false) →
      (a ++ r).dropWhile Char.isDigit = r := by
  intro a
  induction a with
  | nil =>
    intro r _ hr
    cases r with
    | nil => simp
    | cons x xs => simp [List.dropWhile_cons, hr x rfl]
  | cons d ds ih =>
    intro r ha hr
    have hd : d.isDigit = true := ha d (by simp)
    simp only [List.cons_append, List.dropWhile_cons, hd, if_true]
    exact ih r (fun c hc => ha c (by simp [hc])) hr

lemma dropWhile_head_not {p : Char → Bool} :
    ∀ {l : List Char}, (∀ c, l.head? = some c → p c = false) → l.dropWhile p = l := by
  intro l h
  cases l with
  | nil => rfl
  | cons x xs => simp [List.dropWhile_cons, h x rfl]

lemma pyStrip_eq_self {l : List Char}
    (h1 : ∀ c, l.head? = some c → pyIsSpace c = false)
    (h2 : ∀ c, l.getLast? = some c → pyIsSpace c = false) : pyStrip l = l := by
  unfold pyStrip
  rw [dropWhile_head_not h1]
  rw [dropWhile_head_not (by rw [List.head?_reverse]; exact h2)]
  exact List.reverse_reverse l

lemma getLast?_mem : ∀ {l : List Char} {x : Char}, l.getLast? = some x → x ∈ l := by
  intro l
  induction l with
  | nil => intro x h; cases h
  | cons a as ih =>
    intro x h
    cases as with
    | nil => simp at h; simp [h]
    | cons b bs =>
      rw [List.getLast?_cons_cons] at h
      exact List.mem_cons_of_mem a (ih h)

lemma getLast?_append_right {l₁ l₂ : List Char} (h : l₂ ≠ []) :
    (l₁ ++ l₂).getLast? = l₂.getLast? := by
  rw [List.getLast?_append]
  cases hl : l₂.getLast? with
  | none => exact absurd (List.getLast?_eq_none_iff.mp hl) h
  | some x => rfl

/-- `pyStrip` is the identity on a list whose first and last characters are
digits. -/
lemma pyStrip_digit_ends {l : List Char}
    (h1 : ∀ c, l.head? = some c → c.isDigit = true)
    (h2 : ∀ c, l.getLast? = some c → c.isDigit = true) : pyStrip l = l :=
  pyStrip_eq_self (fun c hc => isDigit_not_space (h1 c hc))
    (fun c hc => isDigit_not_space (h2 c hc))

lemma takeWhile_digits_all {b : List Char} (hb : ∀ c ∈ b, c.isDigit = true) :
    b.takeWhile Char.isDigit = b := List.takeWhile_eq_self_iff.mpr hb

lemma dropWhile_digits_all {b : List Char} (hb : ∀ c ∈ b, c.isDigit = true) :
    b.dropWhile Char.isDigit = [] := by
  have h := dropWhile_digits_append b [] hb (by intro c hc; simp at hc)
  simpa using h

lemma head_cons_not_digit {c : Char} (hc : c.isDigit = false) (b : List Char) :
    ∀ x, (c :: b).head? = some x → x.isDigit = false := by
  intro x hx
  simp only [List.head?_cons, Option.some.injEq] at hx
  subst hx
  exact hc

/-! ### Behaviour of the three time patterns on decomposed inputs -/

lemma matchHMS_colon {a b : List Char}
    (ha : ∀ c ∈ a, c.isDigit = true) (hb : ∀ c ∈ b, c.isDigit = true)
    (ha1 : 1 ≤ a.length) (ha2 : a.length ≤ 2)
    (hb1 : 1 ≤ b.length) (hb2 : b.length ≤ 2) :
    matchHMS (a ++ ':' :: b) = some (digitsVal a, digitsVal b) := by
  have hta := takeWhile_digits_append a (':' :: b) ha (head_cons_not_digit (by decide) b)
  have htd := dropWhile_digits_append a (':' :: b) ha (head_cons_not_digit (by decide) b)
  simp only [matchHMS, hta, htd, takeWhile_digits_all hb, dropWhile_digits_all hb]
  rw [if_neg (show ¬(a.length = 0 ∨ a.length > 2) by omega)]
  rw [if_neg (show ¬(b.length = 0 ∨ b.length > 2) by omega)]
  simp

lemma matchHMS_hms {a b s : List Char}
    (ha : ∀ c ∈ a, c.isDigit = true) (hb : ∀ c ∈ b, c.isDigit = true)
    (hs : ∀ c ∈ s, c.isDigit = true)
    (ha1 : 1 ≤ a.length) (ha2 : a.length ≤ 2)
    (hb1 : 1 ≤ b.length) (hb2 : b.length ≤ 2)
    (hs1 : 1 ≤ s.length) (hs2 : s.length ≤ 2) :
    matchHMS (a ++ ':' :: (b ++ ':' :: s)) = some (digitsVal a, digitsVal b) := by
  have hta := takeWhile_digits_append a (':' :: (b ++ ':' :: s)) ha
    (head_cons_not_digit (by decide) _)
  have htd := dropWhile_digits_append a (':' :: (b ++ ':' :: s)) ha
    (head_cons_not_digit (by decide) _)
  have htb := takeWhile_digits_append b (':' :: s) hb (head_cons_not_digit (by decide) s)
  have hdb := dropWhile_digits_append b (':' :: s) hb (head_cons_not_digit (by decide) s)
  simp only [matchHMS, hta, htd, htb, hdb, takeWhile_digits_all hs, dropWhile_digits_all hs]
  rw [if_neg (show ¬(a.length = 0 ∨ a.length > 2) by omega)]
  rw [if_neg (show ¬(b.length = 0 ∨ b.length > 2) by omega)]
  simp [hs1, hs2]

lemma matchHMS_sep_ne {a b : List Char} (c : Char)
    (ha : ∀ x ∈ a, x.isDigit = true) (hc : c.isDigit = false) (hcne : c ≠ ':') :
    matchHMS (a ++ c :: b) = none := by
  have hta := takeWhile_digits_append a (c :: b) ha (head_cons_not_digit hc b)
  have htd := dropWhile_digits_append a (c :: b) ha (head_cons_not_digit hc b)
  simp only [matchHMS, hta, htd]
  by_cases hlen : a.length = 0 ∨ a.length > 2
  · rw [if_pos hlen]
  · rw [if_neg hlen, if_neg hcne]

lemma matchBare_all {a : List Char}
    (ha : ∀ c ∈ a, c.isDigit = true) (ha1 : 1 ≤ a.length) (ha2 : a.length ≤ 2) :
    matchBare a = some (digitsVal a) := by
  simp only [matchBare, takeWhile_digits_all ha, dropWhile_digits_all ha]
  simp [ha1, ha2]

lemma trailing_run {b : List Char} {c : Char}
    (hb : ∀ x ∈ b, x.isDigit = true) (hc : c.isDigit = false) :
    ((c :: b).reverse.takeWhile Char.isDigit).reverse = b := by
  rw [List.reverse_cons]
  rw [takeWhile_digits_append b.reverse [c]
    (fun x hx => hb x (List.mem_reverse.mp hx)) (head_cons_not_digit hc [])]
  exact List.reverse_reverse b

lemma take_one_cons {c : Char} {b : List Char} : (c :: b).take 1 = [c] := by
  simp [List.take_succ_cons]

/-- When the input is two 1-2 digit runs around one whitespace separator,
the generalized-separator pattern matches and captures the two runs. -/
lemma matchSep_space {a b : List Char} {c : Char}
    (ha : ∀ x ∈ a, x.isDigit = true) (hb : ∀ x ∈ b, x.isDigit = true)
    (ha1 : 1 ≤ a.length) (ha2 : a.length ≤ 2)
    (hb1 : 1 ≤ b.length) (hb2 : b.length ≤ 2)
    (hsp : pyIsSpace c = true) :
    matchSep (a ++ c :: b) = some (digitsVal a, digitsVal b) := by
  have hc : c.isDigit = false := space_not_digit hsp
  have hta := takeWhile_digits_append a (c :: b) ha (head_cons_not_digit hc b)
  have htd := dropWhile_digits_append a (c :: b) ha (head_cons_not_digit hc b)
  have hm : (c :: b).take ((c :: b).length - b.length) = [c] := by
    simp only [List.length_cons, Nat.succ_sub (Nat.le_refl _), Nat.sub_self]
    exact take_one_cons
  simp only [matchSep, hta, htd, trailing_run hb hc, hm]
  rw [if_neg (show ¬(a.length = 0 ∨ a.length > 2) by omega)]
  rw [if_neg (show ¬(b.length = 0 ∨ b.length > 2) by omega)]
  simp [List.filter_cons, hsp]

/-- When the separator is one of `:`, `.`, `-`, the generalized-separator
pattern matches and captures the two runs. -/
lemma matchSep_class {a b : List Char} {c : Char}
    (ha : ∀ x ∈ a, x.isDigit = true) (hb : ∀ x ∈ b, x.isDigit = true)
    (ha1 : 1 ≤ a.length) (ha2 : a.length ≤ 2)
    (hb1 : 1 ≤ b.length) (hb2 : b.length ≤ 2)
    (hcc : c = ':' ∨ c = '.' ∨ c = '-') :
    matchSep (a ++ c :: b) = some (digitsVal a, digitsVal b) := by
  have hc : c.isDigit = false := by rcases hcc with h | h | h <;> subst h <;> decide
  have hsp : pyIsSpace c = false := by rcases hcc with h | h | h <;> subst h <;> decide
  have hta := takeWhile_digits_append a (c :: b) ha (head_cons_not_digit hc b)
  have htd := dropWhile_digits_append a (c :: b) ha (head_cons_not_digit hc b)
  have hm : (c :: b).take ((c :: b).length - b.length) = [c] := by
    simp only [List.length_cons, Nat.succ_sub (Nat.le_refl _), Nat.sub_self]
    exact take_one_cons
  simp only [matchSep, hta, htd, trailing_run hb hc, hm]
  rw [if_neg (show ¬(a.length = 0 ∨ a.length > 2) by omega)]
  rw [if_neg (show ¬(b.length = 0 ∨ b.length > 2) by omega)]
  simp [List.filter_cons, hsp, hcc]

/-- On an `HH:MM:SS`-shaped input the generalized-separator pattern fails:
the middle between the leading and trailing digit runs holds two colons and
the minute digits. -/
lemma matchSep_hms {a b s : List Char}
    (ha : ∀ x ∈ a, x.isDigit = true) (hb : ∀ x ∈ b, x.isDigit = true)
    (hs : ∀ x ∈ s, x.isDigit = true)
    (hs1 : 1 ≤ s.length) (hs2 : s.length ≤ 2) :
    matchSep (a ++ ':' :: (b ++ ':' :: s)) = none := by
  have hcolon : (':' : Char).isDigit = false := by decide
  have hta := takeWhile_digits_append a (':' :: (b ++ ':' :: s)) ha
    (head_cons_not_digit hcolon _)
  have htd := dropWhile_digits_append a (':' :: (b ++ ':' :: s)) ha
    (head_cons_not_digit hcolon _)
  have hrev : (':' :: (b ++ ':' :: s)).reverse = s.reverse ++ ':' :: (b.reverse ++ [':']) := by
    simp
  have htr : ((':' :: (b ++ ':' :: s)).reverse.takeWhile Char.isDigit).reverse = s := by
    rw [hrev]
    rw [takeWhile_digits_append s.reverse (':' :: (b.reverse ++ [':']))
      (fun x hx => hs x (List.mem_reverse.mp hx)) (head_cons_not_digit hcolon _)]
    exact List.reverse_reverse s
  have hlen : (':' :: (b ++ ':' :: s)).length - s.length = (b.length + 1) + 1 := by
    simp [List.length_cons, List.length_append]
    omega
  have hm : (':' :: (b ++ ':' :: s)).take ((b.length + 1) + 1) = ':' :: (b ++ [':']) := by
    rw [List.take_succ_cons]
    have h1 : b.length + 1 = b.length + 1 := rfl
    rw [show b ++ ':' :: s = b ++ (':' :: s) from rfl]
    rw [List.take_append 1]
    simp [take_one_cons]
  have hfil : (':' :: (b ++ [':'])).filter (fun c => !(pyIsSpace c)) = ':' :: (b ++ [':']) := by
    rw [List.filter_eq_self]
    intro x hx
    rcases List.mem_cons.mp hx with h | h
    · subst h; decide
    · rcases List.mem_append.mp h with h2 | h2
      · rw [isDigit_not_space (hb x h2)]; rfl
      · rcases List.mem_singleton.mp h2 with rfl; decide
  by_cases hla : a.length = 0 ∨ a.length > 2
  · simp only [matchSep, hta, htd]
    rw [if_pos hla]
  · simp only [matchSep, hta, htd, htr, hlen, hm, hfil]
    rw [if_neg hla]
    rw [if_neg (show ¬(s.length = 0 ∨ s.length > 2) by omega)]
    simp

lemma matchBare_append_none {a b : List Char} {c : Char}
    (ha : ∀ x ∈ a, x.isDigit = true) (hc : c.isDigit = false) :
    matchBare (a ++ c :: b) = none := by
  have htd := dropWhile_digits_append a (c :: b) ha (head_cons_not_digit hc b)
  simp only [matchBare, htd]
  rw [if_neg (by simp)]

lemma matchHMS_digits_none {a : List Char} (ha : ∀ c ∈ a, c.isDigit = true) :
    matchHMS a = none := by
  simp only [matchHMS, takeWhile_digits_all ha, dropWhile_digits_all ha]
  by_cases hla : a.length = 0 ∨ a.length > 2
  · rw [if_pos hla]
  · rw [if_neg hla]

lemma matchSep_digits_none {a : List Char} (ha : ∀ c ∈ a, c.isDigit = true) :
    matchSep a = none := by
  simp only [matchSep, takeWhile_digits_all ha, dropWhile_digits_all ha]
  by_cases hla : a.length = 0 ∨ a.length > 2
  · rw [if_pos hla]
  · rw [if_neg hla]
    simp

/-! ### `pyStrip` on the decomposed inputs -/

lemma getLast?_sandwich {x b : List Char} {c : Char} (hb : b ≠ []) :
    (x ++ c :: b).getLast? = b.getLast? := by
  rw [getLast?_append_right (List.cons_ne_nil c b)]
  rw [show c :: b = [c] ++ b from rfl]
  rw [getLast?_append_right hb]

lemma head_append_digit {a r : List Char}
    (ha : ∀ c ∈ a, c.isDigit = true) (ha1 : 1 ≤ a.length) :
    ∀ x, (a ++ r).head? = some x → x.isDigit = true := by
  obtain ⟨a0, as, rfl⟩ :=
    List.exists_cons_of_ne_nil (List.length_pos.mp (by omega) : a ≠ [])
  intro x hx
  simp only [List.cons_append, List.head?_cons, Option.some.injEq] at hx
  subst hx
  exact ha a0 (by simp)

lemma pyStrip_sep_shape {a b : List Char} (c : Char)
    (ha : ∀ x ∈ a, x.isDigit = true) (hb : ∀ x ∈ b, x.isDigit = true)
    (ha1 : 1 ≤ a.length) (hb1 : 1 ≤ b.length) :
    pyStrip (a ++ c :: b) = a ++ c :: b := by
  apply pyStrip_digit_ends
  · exact head_append_digit ha ha1
  · intro x hx
    rw [getLast?_sandwich (List.length_pos.mp (by omega))] at hx
    exact hb x (getLast?_mem hx)

lemma pyStrip_hms_shape {a b s : List Char}
    (ha : ∀ x ∈ a, x.isDigit = true) (hs : ∀ x ∈ s, x.isDigit = true)
    (ha1 : 1 ≤ a.length) (hs1 : 1 ≤ s.length) :
    pyStrip (a ++ ':' :: (b ++ ':' :: s)) = a ++ ':' :: (b ++ ':' :: s) := by
  apply pyStrip_digit_ends
  · exact head_append_digit ha ha1
  · intro x hx
    rw [getLast?_sandwich (show b ++ ':' :: s ≠ [] by simp)] at hx
    rw [getLast?_sandwich (List.length_pos.mp (by omega))] at hx
    exact hs x (getLast?_mem hx)

lemma pyStrip_bare_shape {a : List Char}
    (ha : ∀ x ∈ a, x.isDigit = true) (ha1 : 1 ≤ a.length) :
    pyStrip a = a := by
  apply pyStrip_digit_ends
  · intro x hx
    cases a with
    | nil => cases hx
    | cons a0 as =>
      simp only [List.head?_cons, Option.some.injEq] at hx
      subst hx
      exact ha a0 (by simp)
  · intro x hx
    exact ha x (getLast?_mem hx)

lemma dropWhile_all_true {p : Char → Bool} :
    ∀ {l : List Char}, (∀ c ∈ l, p c = true) → l.dropWhile p = [] := by
  intro l h
  induction l with
  | nil => rfl
  | cons x xs ih =>
    simp only [List.dropWhile_cons, h x (by simp), if_true]
    exact ih (fun c hc => h c (by simp [hc]))

lemma pyStrip_all_space {l : List Char} (h : ∀ c ∈ l, pyIsSpace c = true) :
    pyStrip l = [] := by
  unfold pyStrip
  rw [dropWhile_all_true h]
  simp

/-! ### `normalize_time` on the decomposed inputs -/

/-- A valid `HH:MM` input normalizes to its two components. -/
lemma normalize_time_hm {a b : List Char}
    (ha : ∀ c ∈ a, c.isDigit = true) (hb : ∀ c ∈ b, c.isDigit = true)
    (ha1 : 1 ≤ a.length) (ha2 : a.length ≤ 2)
    (hb1 : 1 ≤ b.length) (hb2 : b.length ≤ 2)
    (hva : digitsVal a ≤ 23) (hvb : digitsVal b ≤ 59) :
    normalize_time ⟨a ++ ':' :: b⟩ = some (digitsVal a, digitsVal b) := by
  simp only [normalize_time, pyStrip_sep_shape ':' ha hb ha1 hb1,
    matchHMS_colon ha hb ha1 ha2 hb1 hb2]
  simp [hva, hvb]

/-- A valid `HH:MM:SS` input normalizes to hour and minute, whatever the
seconds digits are. -/
lemma normalize_time_hms {a b s : List Char}
    (ha : ∀ c ∈ a, c.isDigit = true) (hb : ∀ c ∈ b, c.isDigit = true)
    (hs : ∀ c ∈ s, c.isDigit = true)
    (ha1 : 1 ≤ a.length) (ha2 : a.length ≤ 2)
    (hb1 : 1 ≤ b.length) (hb2 : b.length ≤ 2)
    (hs1 : 1 ≤ s.length) (hs2 : s.length ≤ 2)
    (hva : digitsVal a ≤ 23) (hvb : digitsVal b ≤ 59) :
    normalize_time ⟨a ++ ':' :: (b ++ ':' :: s)⟩ = some (digitsVal a, digitsVal b) := by
  simp only [normalize_time, pyStrip_hms_shape ha hs ha1 hs1,
    matchHMS_hms ha hb hs ha1 ha2 hb1 hb2 hs1 hs2]
  simp [hva, hvb]

/-- An `HH:MM` input whose hour exceeds 23 or minute exceeds 59 falls
through every pattern: the result is `none`. -/
lemma normalize_time_hm_bad {a b : List Char}
    (ha : ∀ c ∈ a, c.isDigit = true) (hb : ∀ c ∈ b, c.isDigit = true)
    (ha1 : 1 ≤ a.length) (ha2 : a.length ≤ 2)
    (hb1 : 1 ≤ b.length) (hb2 : b.length ≤ 2)
    (hbad : ¬(digitsVal a ≤ 23 ∧ digitsVal b ≤ 59)) :
    normalize_time ⟨a ++ ':' :: b⟩ = none := by
  simp only [normalize_time, pyStrip_sep_shape ':' ha hb ha1 hb1,
    matchHMS_colon ha hb ha1 ha2 hb1 hb2,
    matchSep_class ha hb ha1 ha2 hb1 hb2 (Or.inl rfl),
    matchBare_append_none ha (show (':' : Char).isDigit = false by decide)]
  simp [hbad]

/-- An `HH:MM:SS` input whose hour exceeds 23 or minute exceeds 59 falls
through every pattern: the result is `none`. -/
lemma normalize_time_hms_bad {a b s : List Char}
    (ha : ∀ c ∈ a, c.isDigit = true) (hb : ∀ c ∈ b, c.isDigit = true)
    (hs : ∀ c ∈ s, c.isDigit = true)
    (ha1 : 1 ≤ a.length) (ha2 : a.length ≤ 2)
    (hb1 : 1 ≤ b.length) (hb2 : b.length ≤ 2)
    (hs1 : 1 ≤ s.length) (hs2 : s.length ≤ 2)
    (hbad : ¬(digitsVal a ≤ 23 ∧ digitsVal b ≤ 59)) :
    normalize_time ⟨a ++ ':' :: (b ++ ':' :: s)⟩ = none := by
  simp only [normalize_time, pyStrip_hms_shape ha hs ha1 hs1,
    matchHMS_hms ha hb hs ha1 ha2 hb1 hb2 hs1 hs2,
    matchSep_hms ha hb hs hs1 hs2,
    matchBare_append_none ha (show (':' : Char).isDigit = false by decide)]
  simp [hbad]

/-- Two valid 1-2 digit runs joined by any of `:`, `.`, `-`, or a whitespace
character normalize to the two runs' values. -/
lemma normalize_time_sep {a b : List Char} {c : Char}
    (ha : ∀ x ∈ a, x.isDigit = true) (hb : ∀ x ∈ b, x.isDigit = true)
    (ha1 : 1 ≤ a.length) (ha2 : a.length ≤ 2)
    (hb1 : 1 ≤ b.length) (hb2 : b.length ≤ 2)
    (hva : digitsVal a ≤ 23) (hvb : digitsVal b ≤ 59)
    (hc : c = ':' ∨ c = '.' ∨ c = '-' ∨ pyIsSpace c = true) :
    normalize_time ⟨a ++ c :: b⟩ = some (digitsVal a, digitsVal b) := by
  rcases hc with rfl | rfl | rfl | hsp
  · exact normalize_time_hm ha hb ha1 ha2 hb1 hb2 hva hvb
  · simp only [normalize_time, pyStrip_sep_shape '.' ha hb ha1 hb1,
      matchHMS_sep_ne '.' ha (by decide) (by decide),
      matchSep_class ha hb ha1 ha2 hb1 hb2 (Or.inr (Or.inl rfl))]
    simp [hva, hvb]
  · simp only [normalize_time, pyStrip_sep_shape '-' ha hb ha1 hb1,
      matchHMS_sep_ne '-' ha (by decide) (by decide),
      matchSep_class ha hb ha1 ha2 hb1 hb2 (Or.inr (Or.inr rfl))]
    simp [hva, hvb]
  · have hcne : c ≠ ':' := by intro h; subst h; exact absurd hsp (by decide)
    simp only [normalize_time, pyStrip_sep_shape c ha hb ha1 hb1,
      matchHMS_sep_ne c ha (space_not_digit hsp) hcne,
      matchSep_space ha hb ha1 ha2 hb1 hb2 hsp]
    simp [hva, hvb]

/-- A bare 1-2 digit hour normalizes to `(hour, 0)`. -/
lemma normalize_time_bare {a : List Char}
    (ha : ∀ c ∈ a, c.isDigit = true)
    (ha1 : 1 ≤ a.length) (ha2 : a.length ≤ 2) (hva : digitsVal a ≤ 23) :
    normalize_time ⟨a⟩ = some (digitsVal a, 0) := by
  simp only [normalize_time, pyStrip_bare_shape ha ha1,
    matchHMS_digits_none ha, matchSep_digits_none ha,
    matchBare_all ha ha1 ha2]
  simp [hva]

/-- Whitespace-only (in particular empty) input is unparseable. -/
lemma normalize_time_spaces {s : String} (h : ∀ c ∈ s.data, pyIsSpace c = true) :
    normalize_time s = none := by
  have hstrip : pyStrip s.data = [] := pyStrip_all_space h
  simp only [normalize_time, hstrip]
  rfl

/-! ### Claim C5 -/

/-- C5: for every `HH:MM` or `HH:MM:SS` string (components of 1 or 2 digits)
with hour in `[0,23]` and minute in `[0,59]`, `normalize_time` returns
exactly `(hour, minute)`; when the hour exceeds 23 or the minute exceeds 59
the structurally matching patterns are not accepted and the input is
unparseable (`none`). -/
theorem claim_C5 :
    (∀ a b : List Char, (∀ c ∈ a, c.isDigit = true) → (∀ c ∈ b, c.isDigit = true) →
      1 ≤ a.length → a.length ≤ 2 → 1 ≤ b.length → b.length ≤ 2 →
      digitsVal a ≤ 23 → digitsVal b ≤ 59 →
      normalize_time ⟨a ++ ':' :: b⟩ = some (digitsVal a, digitsVal b)) ∧
    (∀ a b s : List Char, (∀ c ∈ a, c.isDigit = true) → (∀ c ∈ b, c.isDigit = true) →
      (∀ c ∈ s, c.isDigit = true) →
      1 ≤ a.length → a.length ≤ 2 → 1 ≤ b.length → b.length ≤ 2 →
      1 ≤ s.length → s.length ≤ 2 →
      digitsVal a ≤ 23 → digitsVal b ≤ 59 →
      normalize_time ⟨a ++ ':' :: (b ++ ':' :: s)⟩ = some (digitsVal a, digitsVal b)) ∧
    (∀ a b : List Char, (∀ c ∈ a, c.isDigit = true) → (∀ c ∈ b, c.isDigit = true) →
      1 ≤ a.length → a.length ≤ 2 → 1 ≤ b.length → b.length ≤ 2 →
      ¬(digitsVal a ≤ 23 ∧ digitsVal b ≤ 59) →
      normalize_time ⟨a ++ ':' :: b⟩ = none) ∧
    (∀ a b s : List Char, (∀ c ∈ a, c.isDigit = true) → (∀ c ∈ b, c.isDigit = true) →
      (∀ c ∈ s, c.isDigit = true) →
      1 ≤ a.length → a.length ≤ 2 → 1 ≤ b.length → b.length ≤ 2 →
      1 ≤ s.length → s.length ≤ 2 →
      ¬(digitsVal a ≤ 23 ∧ digitsVal b ≤ 59) →
      normalize_time ⟨a ++ ':' :: (b ++ ':' :: s)⟩ = none) := by
  refine ⟨?_, ?_, ?_, ?_⟩
  · intro a b ha hb ha1 ha2 hb1 hb2 hva hvb
    exact normalize_time_hm ha hb ha1 ha2 hb1 hb2 hva hvb
  · intro a b s ha hb hs ha1 ha2 hb1 hb2 hs1 hs2 hva hvb
    exact normalize_time_hms ha hb hs ha1 ha2 hb1 hb2 hs1 hs2 hva hvb
  · intro a b ha hb ha1 ha2 hb1 hb2 hbad
    exact normalize_time_hm_bad ha hb ha1 ha2 hb1 hb2 hbad
  · intro a b s ha hb hs ha1 ha2 hb1 hb2 hs1 hs2 hbad
    exact normalize_time_hms_bad ha hb hs ha1 ha2 hb1 hb2 hs1 hs2 hbad

/-- Witness for C5 at concrete inputs: `"09:30"`, `"7:08:59"`, `"24:00"`,
`"16:60:00"`. -/
theorem claim_C5_witness :
    normalize_time ⟨['0', '9'] ++ ':' :: ['3', '0']⟩ = some (9, 30) ∧
    normalize_time ⟨['7'] ++ ':' :: (['0', '8'] ++ ':' :: ['5', '9'])⟩ = some (7, 8) ∧
    normalize_time ⟨['2', '4'] ++ ':' :: ['0', '0']⟩ = none ∧
    normalize_time ⟨['1', '6'] ++ ':' :: (['6', '0'] ++ ':' :: ['0', '0'])⟩ = none := by
  refine ⟨?_, ?_, ?_, ?_⟩
  · exact (claim_C5.1 ['0', '9'] ['3', '0'] (by decide) (by decide) (by decide)
      (by decide) (by decide) (by decide) (by decide) (by decide)).trans (by decide)
  · exact (claim_C5.2.1 ['7'] ['0', '8'] ['5', '9'] (by decide) (by decide) (by decide)
      (by decide) (by decide) (by decide) (by decide) (by decide) (by decide)
      (by decide) (by decide)).trans (by decide)
  · exact claim_C5.2.2.1 ['2', '4'] ['0', '0'] (by decide) (by decide) (by decide)
      (by decide) (by decide) (by decide) (by decide)
  · exact claim_C5.2.2.2 ['1', '6'] ['6', '0'] ['0', '0'] (by decide) (by decide)
      (by decide) (by decide) (by decide) (by decide) (by decide) (by decide)
      (by decide) (by decide)

/-! ### Claim C6 -/

/-- C6: `normalize_time` accepts `HH:MM`/`HH:MM:SS`, the generalized
single-separator form with separator `:`, `.`, `-` or whitespace, and bare
`HH` with minute defaulting to 0; `"16.00"`, `"16-00"` and `"16"` all
normalize to `(16, 0)`, while empty or whitespace-only input is unparseable. -/
theorem claim_C6 :
    normalize_time "16.00" = some (16, 0) ∧
    normalize_time "16-00" = some (16, 0) ∧
    normalize_time "16" = some (16, 0) ∧
    normalize_time "" = none ∧
    (∀ (a b : List Char) (c : Char),
      (∀ x ∈ a, x.isDigit = true) → (∀ x ∈ b, x.isDigit = true) →
      1 ≤ a.length → a.length ≤ 2 → 1 ≤ b.length → b.length ≤ 2 →
      digitsVal a ≤ 23 → digitsVal b ≤ 59 →
      (c = ':' ∨ c = '.' ∨ c = '-' ∨ pyIsSpace c = true) →
      normalize_time ⟨a ++ c :: b⟩ = some (digitsVal a, digitsVal b)) ∧
    (∀ a : List Char, (∀ x ∈ a, x.isDigit = true) →
      1 ≤ a.length → a.length ≤ 2 → digitsVal a ≤ 23 →
      normalize_time ⟨a⟩ = some (digitsVal a, 0)) ∧
    (∀ s : String, (∀ c ∈ s.data, pyIsSpace c = true) → normalize_time s = none) := by
  refine ⟨by decide, by decide, by decide, by decide, ?_, ?_, ?_⟩
  · intro a b c ha hb ha1 ha2 hb1 hb2 hva hvb hc
    exact normalize_time_sep ha hb ha1 ha2 hb1 hb2 hva hvb hc
  · intro a ha ha1 ha2 hva
    exact normalize_time_bare ha ha1 ha2 hva
  · intro s hs
    exact normalize_time_spaces hs

/-- Witness for C6 at concrete inputs: `"7 30"` (whitespace separator),
bare `"16"`, and the whitespace-only string `"  "`. -/
theorem claim_C6_witness :
    normalize_time ⟨['7'] ++ ' ' :: ['3', '0']⟩ = some (7, 30) ∧
    normalize_time ⟨['1', '6']⟩ = some (16, 0) ∧
    normalize_time "  " = none := by
  refine ⟨?_, ?_, ?_⟩
  · exact (claim_C6.2.2.2.2.1 ['7'] ['3', '0'] ' ' (by decide) (by decide) (by decide)
      (by decide) (by decide) (by decide) (by decide) (by decide)
      (Or.inr (Or.inr (Or.inr (by decide))))).trans (by decide)
  · exact (claim_C6.2.2.2.2.2.1 ['1', '6'] (by decide) (by decide) (by decide)
      (by decide)).trans (by decide)
  · exact claim_C6.2.2.2.2.2.2 "  " (by decide)

/-! ### Claim C10 -/

/-- C10: `normalize_time` never validates the seconds field of an
`HH:MM:SS` input: for every valid hour and minute and any 1- or 2-digit
seconds run — even one whose value exceeds 59 — it returns
`(hour, minute)`, silently discarding the seconds; in particular
`"16:30:99"` normalizes to `(16, 30)`. -/
theorem claim_C10 :
    (∀ a b s : List Char, (∀ c ∈ a, c.isDigit = true) → (∀ c ∈ b, c.isDigit = true) →
      (∀ c ∈ s, c.isDigit = true) →
      1 ≤ a.length → a.length ≤ 2 → 1 ≤ b.length → b.length ≤ 2 →
      1 ≤ s.length → s.length ≤ 2 →
      digitsVal a ≤ 23 → digitsVal b ≤ 59 →
      normalize_time ⟨a ++ ':' :: (b ++ ':' :: s)⟩ = some (digitsVal a, digitsVal b)) ∧
    normalize_time "16:30:99" = some (16, 30) := by
  refine ⟨?_, by decide⟩
  intro a b s ha hb hs ha1 ha2 hb1 hb2 hs1 hs2 hva hvb
  exact normalize_time_hms ha hb hs ha1 ha2 hb1 hb2 hs1 hs2 hva hvb

/-- Witness for C10: seconds value 99 (above 59) is silently discarded. -/
theorem claim_C10_witness :
    normalize_time ⟨['1', '6'] ++ ':' :: (['3', '0'] ++ ':' :: ['9', '9'])⟩ =
      some (16, 30) := by
  exact (claim_C10.1 ['1', '6'] ['3', '0'] ['9', '9'] (by decide) (by decide)
    (by decide) (by decide) (by decide) (by decide) (by decide) (by decide)
    (by decide) (by decide) (by decide)).trans (by decide)

/-! ### `Nat.repr` produces `decDigits`, whose value round-trips: the row
keys `row-<idx>` are therefore injective in `idx`. -/

lemma toDigitsCore_eq : ∀ (f n : Nat) (l : List Char), n < f →
    Nat.toDigitsCore 10 f n l = decDigits n ++ l := by
  intro f
  induction f with
  | zero => intro n l h; omega
  | succ f ih =>
    intro n l h
    simp only [Nat.toDigitsCore]
    by_cases h10 : n / 10 = 0
    · rw [if_pos h10]
      have hn : n < 10 := by
        by_contra hge
        have h1 : 1 ≤ n / 10 := (Nat.one_le_div_iff (by omega)).mpr (by omega)
        omega
      rw [decDigits, if_pos hn, Nat.mod_eq_of_lt hn]
      rfl
    · rw [if_neg h10]
      have hpos : 0 < n := by
        rcases Nat.eq_zero_or_pos n with h0 | h0
        · subst h0
          exact absurd (by norm_num) h10
        · exact h0
      have hlt : n / 10 < f := by
        have := Nat.div_lt_self hpos (by omega : 1 < 10)
        omega
      rw [ih (n / 10) (Nat.digitChar (n % 10) :: l) hlt]
      have hge : ¬ n < 10 := fun hlt10 => h10 (Nat.div_eq_of_lt hlt10)
      conv_rhs => rw [decDigits]
      rw [if_neg hge]
      simp

lemma repr_data (n : Nat) : (Nat.repr n).data = decDigits n := by
  show (Nat.toDigits 10 n).asString.data = decDigits n
  unfold Nat.toDigits
  rw [toDigitsCore_eq (n + 1) n [] (Nat.lt_succ_self n)]
  simp [List.asString]

lemma digitsVal_append_singleton (l : List Char) (c : Char) :
    digitsVal (l ++ [c]) = 10 * digitsVal l + (c.toNat - 48) := by
  unfold digitsVal
  rw [List.foldl_append]
  rfl

lemma digitChar_val {k : Nat} (h : k < 10) : (Nat.digitChar k).toNat - 48 = k := by
  interval_cases k <;> decide

lemma digitsVal_decDigits (n : Nat) : digitsVal (decDigits n) = n := by
  induction n using Nat.strong_induction_on with
  | _ n ih =>
    rw [decDigits]
    by_cases h : n < 10
    · rw [if_pos h]
      show digitsVal [Nat.digitChar n] = n
      have : digitsVal [Nat.digitChar n] = (Nat.digitChar n).toNat - 48 := by
        unfold digitsVal
        simp
      rw [this, digitChar_val h]
    · rw [if_neg h]
      rw [digitsVal_append_singleton]
      rw [ih (n / 10) (Nat.div_lt_self (by omega) (by omega))]
      rw [digitChar_val (Nat.mod_lt n (by omega))]
      omega

lemma repr_injective : Function.Injective Nat.repr := by
  intro m n h
  have hm : decDigits m = decDigits n := by
    rw [← repr_data, ← repr_data, h]
  have hv := congrArg digitsVal hm
  rwa [digitsVal_decDigits, digitsVal_decDigits] at hv

lemma rowKey_injective : Function.Injective rowKey := by
  intro i j h
  unfold rowKey at h
  have hd := congrArg String.data h
  rw [String.data_append, String.data_append] at hd
  exact repr_injective (String.ext (List.append_cancel_left hd))

lemma isRowKey_rowKey (idx : Nat) : isRowKey (rowKey idx) = true := by
  unfold isRowKey rowKey
  rw [String.data_append]
  rw [show ("row-" : String).data = ['r', 'o', 'w', '-'] from rfl]
  simp

/-! ### Keys of accepted rows -/

/-- Every job returned by `parse_row idx _` carries the key `row-<idx>`. -/
lemma parse_row_key : ∀ {idx : Nat} {row : List String} {j : Job},
    (parse_row idx row).1 = some j → j.key = rowKey idx := by
  intro idx row j h
  rcases hpr : parse_row idx row with ⟨fst, snd⟩
  rw [hpr] at h
  simp only at h
  subst h
  rcases row with _ | ⟨c0, _ | ⟨c1, _ | ⟨c2, _ | ⟨c3, _ | ⟨c4, _ | ⟨c5, _ | ⟨c6, rest⟩⟩⟩⟩⟩⟩⟩ <;>
    simp only [parse_row] at hpr
  all_goals try exact absurd hpr (by simp)
  by_cases h0 : pyUpper (pyStripS c0) ∈ TRUTHY
  · rw [if_pos h0] at hpr
    by_cases h1 : pyStripS c1 = ""
    · rw [if_pos h1] at hpr
      exact absurd hpr (by simp)
    · rw [if_neg h1] at hpr
      rcases htm : normalize_time (pyStripS c5) with _ | ⟨hh, mm⟩
      · rw [htm] at hpr
        exact absurd hpr (by simp)
      · rw [htm] at hpr
        dsimp only at hpr
        by_cases h2 : pyLower (pyStripS c2) = "день"
        · rw [if_pos h2] at hpr
          simp only [Prod.mk.injEq, Option.some.injEq] at hpr
          obtain ⟨rfl, -⟩ := hpr
          rfl
        · rw [if_neg h2] at hpr
          by_cases h3 : pyLower (pyStripS c2) = "неделя"
          · rw [if_pos h3] at hpr
            rcases hwd : WEEKDAY_MAP.lookup (pyLower (pyStripS c4)) with _ | d
            · rw [hwd] at hpr
              exact absurd hpr (by simp)
            · rw [hwd] at hpr
              simp only [Prod.mk.injEq, Option.some.injEq] at hpr
              obtain ⟨rfl, -⟩ := hpr
              rfl
          · rw [if_neg h3] at hpr
            by_cases h4 : pyLower (pyStripS c2) = "месяц"
            · rw [if_pos h4] at hpr
              rcases hdm : extract_first_digits (pyStripS c3) with _ | dom
              · rw [hdm] at hpr
                exact absurd hpr (by simp)
              · rw [hdm] at hpr
                dsimp only at hpr
                by_cases h5 : 1 ≤ dom ∧ dom ≤ 31
                · rw [if_pos h5] at hpr
                  simp only [Prod.mk.injEq, Option.some.injEq] at hpr
                  obtain ⟨rfl, -⟩ := hpr
                  rfl
                · rw [if_neg h5] at hpr
                  exact absurd hpr (by simp)
            · rw [if_neg h4] at hpr
              exact absurd hpr (by simp)
  · rw [if_neg h0] at hpr
    exact absurd hpr (by simp)

lemma mem_accepted_items {v : List (List String)} {j : Job}
    (hj : j ∈ accepted_items v) :
    ∃ idx row, (idx, row) ∈ List.enumFrom 2 (v.drop 1) ∧
      (parse_row idx (pad6 row)).1 = some j := by
  obtain ⟨⟨idx, row⟩, hmem, hparse⟩ := List.mem_filterMap.mp hj
  exact ⟨idx, row, hmem, hparse⟩

/-- Every accepted key of a cycle is a `row-`-prefixed id. -/
lemma active_key_isRow {v : List (List String)} {k : String}
    (hk : k ∈ active_keys v) : isRowKey k = true := by
  obtain ⟨j, hj, rfl⟩ := List.mem_map.mp hk
  obtain ⟨idx, row, _, hparse⟩ := mem_accepted_items hj
  rw [parse_row_key hparse]
  exact isRowKey_rowKey idx

/-! ### Registry membership through one refresh cycle -/

lemma exists_mem_schedule_job {reg : Registry} {it : Job} {k : String} :
    (∃ p, (k, p) ∈ schedule_job reg it) ↔ (k = it.key ∨ ∃ p, (k, p) ∈ reg) := by
  unfold schedule_job
  constructor
  · rintro ⟨p, hp⟩
    rcases List.mem_append.mp hp with hmem | hmem
    · exact Or.inr ⟨p, (List.mem_filter.mp hmem).1⟩
    · simp only [List.mem_singleton, Prod.mk.injEq] at hmem
      exact Or.inl hmem.1
  · rintro (rfl | ⟨p, hp⟩)
    · exact ⟨some it, List.mem_append.mpr (Or.inr (by simp))⟩
    · by_cases hk : k = it.key
      · exact ⟨some it, List.mem_append.mpr (Or.inr (by simp [hk]))⟩
      · refine ⟨p, List.mem_append.mpr (Or.inl (List.mem_filter.mpr ⟨hp, ?_⟩))⟩
        simpa using hk

lemma exists_mem_foldl (items : List Job) : ∀ {reg : Registry} {k : String},
    (∃ p, (k, p) ∈ items.foldl schedule_job reg) ↔
      (k ∈ items.map Job.key ∨ ∃ p, (k, p) ∈ reg) := by
  induction items with
  | nil => simp
  | cons it rest ih =>
    intro reg k
    rw [List.foldl_cons, ih, exists_mem_schedule_job]
    simp only [List.map_cons, List.mem_cons]
    tauto

/-- A `row-`-prefixed id is in the registry after a non-trivial refresh cycle
iff it is among the cycle's accepted keys. -/
lemma keyMem_refresh_row {v : List (List String)} {reg : Registry} {k : String}
    (hlen : ¬ v.length < 2) (hrow : isRowKey k = true) :
    (∃ p, (k, p) ∈ refresh_schedule v reg) ↔ k ∈ active_keys v := by
  unfold refresh_schedule
  rw [if_neg hlen]
  constructor
  · rintro ⟨p, hp⟩
    obtain ⟨hmem, hkeep⟩ := List.mem_filter.mp hp
    simp only [hrow, Bool.true_and, Bool.not_not] at hkeep
    exact List.elem_iff.mp hkeep
  · intro hk
    obtain ⟨p, hp⟩ := (exists_mem_foldl (accepted_items v)).mpr (Or.inl hk)
    refine ⟨p, List.mem_filter.mpr ⟨hp, ?_⟩⟩
    simp only [hrow, Bool.true_and, Bool.not_not]
    exact List.elem_iff.mpr hk

/-- Ids that are not `row-`-prefixed pass through a refresh cycle unchanged:
they are neither upserted nor removed. -/
lemma keyMem_refresh_nonrow {v : List (List String)} {reg : Registry} {k : String}
    (hlen : ¬ v.length < 2) (hrow : isRowKey k = false) :
    (∃ p, (k, p) ∈ refresh_schedule v reg) ↔ (∃ p, (k, p) ∈ reg) := by
  unfold refresh_schedule
  rw [if_neg hlen]
  constructor
  · rintro ⟨p, hp⟩
    obtain ⟨hmem, _⟩ := List.mem_filter.mp hp
    rcases (exists_mem_foldl (accepted_items v)).mp ⟨p, hmem⟩ with hk | hreg
    · exact absurd (active_key_isRow hk) (by simp [hrow])
    · exact hreg
  · rintro ⟨p, hp⟩
    obtain ⟨q, hq⟩ := (exists_mem_foldl (accepted_items v)).mpr (Or.inr ⟨p, hp⟩)
    refine ⟨q, List.mem_filter.mpr ⟨hq, ?_⟩⟩
    simp [hrow]

lemma exists_six {α : Type} {l : List α} (h : l.length = 6) :
    ∃ a b c d e f, l = [a, b, c, d, e, f] := by
  match l with
  | [a, b, c, d, e, f] => exact ⟨a, b, c, d, e, f, rfl⟩
  | [] => simp at h
  | [_] => simp at h
  | [_, _] => simp at h
  | [_, _, _] => simp at h
  | [_, _, _, _] => simp at h
  | [_, _, _, _, _] => simp at h
  | _ :: _ :: _ :: _ :: _ :: _ :: _ :: _ => simp at h

/-! ### Claim C1 -/

/-- C1: after a refresh cycle on a grid with at least 2 rows, the registry's
`row-`-prefixed job ids are exactly the accepted keys of that cycle (accepted
keys are upserted, stale row jobs removed); consequently a key no longer
accepted in cycle N+1 — in particular the key of a row deleted from the
source — is absent after cycle N+1 completes. -/
theorem claim_C1 :
    (∀ (values : List (List String)) (reg : Registry) (k : String),
      2 ≤ values.length → isRowKey k = true →
      ((∃ p, (k, p) ∈ refresh_schedule values reg) ↔ k ∈ active_keys values)) ∧
    (∀ (vN vN1 : List (List String)) (reg : Registry) (k : String),
      2 ≤ vN1.length → isRowKey k = true → k ∉ active_keys vN1 →
      ∀ p, (k, p) ∉ refresh_schedule vN1 (refresh_schedule vN reg)) := by
  constructor
  · intro v reg k hlen hrow
    exact keyMem_refresh_row (by omega) hrow
  · intro vN vN1 reg k hlen hrow hk p hp
    exact hk ((keyMem_refresh_row (by omega) hrow).mp ⟨p, hp⟩)

/-- Witness for C1: a two-data-row grid registers `row-3`; after the second
row is deleted from the source, the next cycle removes `row-3`. -/
theorem claim_C1_witness :
    (∃ p, (("row-3" : String), p) ∈ refresh_schedule
      [["s", "m", "p", "d", "w", "t"],
       ["TRUE", "A", "день", "", "", "08:00"],
       ["TRUE", "B", "день", "", "", "09:00"]] []) ∧
    (∀ p, (("row-3" : String), p) ∉ refresh_schedule
      [["s", "m", "p", "d", "w", "t"],
       ["TRUE", "A", "день", "", "", "08:00"]]
      (refresh_schedule
        [["s", "m", "p", "d", "w", "t"],
         ["TRUE", "A", "день", "", "", "08:00"],
         ["TRUE", "B", "день", "", "", "09:00"]] [])) := by
  constructor
  · exact (claim_C1.1
      [["s", "m", "p", "d", "w", "t"],
       ["TRUE", "A", "день", "", "", "08:00"],
       ["TRUE", "B", "день", "", "", "09:00"]] [] "row-3"
      (by decide) (by decide)).mpr (by decide)
  · exact claim_C1.2
      [["s", "m", "p", "d", "w", "t"],
       ["TRUE", "A", "день", "", "", "08:00"],
       ["TRUE", "B", "день", "", "", "09:00"]]
      [["s", "m", "p", "d", "w", "t"],
       ["TRUE", "A", "день", "", "", "08:00"]] [] "row-3"
      (by decide) (by decide) (by decide)

/-! ### Claim C2 -/

/-- C2 counterexample: on a grid whose single data row is accepted, the job
key is `row-2` — the index used is `enumerate(values[1:], start=2)`, the
spreadsheet row number — not `row-1` as the 1-based data-row position would
give. -/
theorem claim_C2_counterexample :
    active_keys [["s", "m", "p", "d", "w", "t"],
      ["TRUE", "Standup", "день", "", "", "09:30"]] = ["row-2"] ∧
    ("row-2" : String) ≠ "row-1" := by decide

/-- C2 (amended): every accepted job's key is `row-<i+2>` where `i` is the
0-based position of its data row (so the first data row yields `row-2`: the
key encodes the 1-based position in the whole grid, header included), and
the key is a deterministic, injective function of that position. -/
theorem claim_C2 :
    (∀ (values : List (List String)) (j : Job), j ∈ accepted_items values →
      ∃ i, i < (values.drop 1).length ∧
        (parse_row (2 + i) (pad6 ((values.drop 1).getD i []))).1 = some j ∧
        j.key = rowKey (2 + i)) ∧
    Function.Injective rowKey := by
  constructor
  · intro v j hj
    obtain ⟨idx, row, hmem, hparse⟩ := mem_accepted_items hj
    obtain ⟨h2le, hlt, heq⟩ := List.mem_enumFrom hmem
    refine ⟨idx - 2, by omega, ?_, ?_⟩
    · rw [show 2 + (idx - 2) = idx by omega]
      have hrow : (v.drop 1).getD (idx - 2) [] = row := by
        rw [List.getD_eq_getElem?_getD,
          List.getElem?_eq_getElem (show idx - 2 < (v.drop 1).length by omega)]
        simpa using heq.symm
      rw [hrow]
      exact hparse
    · rw [show 2 + (idx - 2) = idx by omega]
      exact parse_row_key hparse
  · exact rowKey_injective

/-- Witness for C2 at a concrete grid: the single accepted job has key
`row-2` = `rowKey (2 + 0)`. -/
theorem claim_C2_witness :
    ∃ i, i < (([["s", "m", "p", "d", "w", "t"],
        ["TRUE", "Standup", "день", "", "", "09:30"]].drop 1).length) ∧
      (parse_row (2 + i) (pad6 (([["s", "m", "p", "d", "w", "t"],
        ["TRUE", "Standup", "день", "", "", "09:30"]].drop 1).getD i []))).1 =
        some (.daily "row-2" "Standup" 9 30) ∧
      (Job.daily "row-2" "Standup" 9 30).key = rowKey (2 + i) :=
  claim_C2.1 [["s", "m", "p", "d", "w", "t"],
    ["TRUE", "Standup", "день", "", "", "09:30"]]
    (.daily "row-2" "Standup" 9 30) (by decide)

/-! ### Claim C3 -/

/-- C3: when fetching the grid fails, the cycle aborts before any registry
mutation — the `poll` wrapper catches the error and leaves the registry
exactly as it was — so the next interval tick runs against the prior
state. -/
theorem claim_C3 :
    ∀ (e : String) (reg : Registry),
      refresh_with_fetch (Except.error e) reg = Except.error e ∧
      poll (Except.error e) reg = reg := by
  intro e reg
  exact ⟨rfl, rfl⟩

/-! ### Claim C4 -/

/-- C4: running the reconciler twice in succession on an unchanged grid
leaves the registry's key set unchanged: an id is registered after the
second cycle iff it was registered after the first. -/
theorem claim_C4 :
    ∀ (values : List (List String)) (reg : Registry) (k : String),
      (∃ p, (k, p) ∈ refresh_schedule values (refresh_schedule values reg)) ↔
      (∃ p, (k, p) ∈ refresh_schedule values reg) := by
  intro v reg k
  by_cases hlen : v.length < 2
  · simp [refresh_schedule, hlen]
  · by_cases hrow : isRowKey k = true
    · rw [keyMem_refresh_row hlen hrow, keyMem_refresh_row hlen hrow]
    · have hrow2 : isRowKey k = false := by simpa using hrow
      rw [keyMem_refresh_nonrow hlen hrow2, keyMem_refresh_nonrow hlen hrow2]

/-! ### Claim C7 -/

/-- C7: a 6-cell row yields a job only if its trimmed, upper-cased status
cell is in the closed truthy set `TRUE`/`1`/`ДА`/`TRUE✓`; any other status
makes the row inactive — `parse_row` returns `none` and emits no warning —
as on the `FALSE` example row. -/
theorem claim_C7 :
    (∀ (idx : Nat) (c0 c1 c2 c3 c4 c5 : String),
      (parse_row idx [c0, c1, c2, c3, c4, c5]).1.isSome = true →
      pyUpper (pyStripS c0) ∈ TRUTHY) ∧
    (∀ (idx : Nat) (c0 c1 c2 c3 c4 c5 : String),
      pyUpper (pyStripS c0) ∉ TRUTHY →
      parse_row idx [c0, c1, c2, c3, c4, c5] = (none, [])) ∧
    parse_row 2 ["FALSE", "x", "день", "", "", "10:00"] = (none, []) := by
  refine ⟨?_, ?_, by decide⟩
  · intro idx c0 c1 c2 c3 c4 c5 h
    by_cases hs : pyUpper (pyStripS c0) ∈ TRUTHY
    · exact hs
    · simp only [parse_row] at h
      rw [if_neg hs] at h
      simp at h
  · intro idx c0 c1 c2 c3 c4 c5 hs
    simp only [parse_row]
    rw [if_neg hs]

/-- Witness for C7: a status outside the truthy set is silently inactive. -/
theorem claim_C7_witness :
    parse_row 3 ["no", "msg", "день", "", "", "10:00"] = (none, []) :=
  claim_C7.2.1 3 "no" "msg" "день" "" "" "10:00" (by decide)

/-! ### Claim C8 -/

/-- C8: for an active row with non-empty message, parseable time and the
weekly period token `неделя`, a Weekly job is produced iff the trimmed,
lower-cased weekday cell is a key of the closed Russian weekday map into
`[0,6]` (`пн` maps to 0, as on the example row, which yields day-of-week 0,
hour 14, minute 0); any other weekday text is rejected with the bad-weekday
reason. -/
theorem claim_C8 :
    parse_row 2 ["TRUE", "Sync", "неделя", "", "пн", "14:00"] =
      (some (.weekly "row-2" "Sync" 0 14 0), []) ∧
    WEEKDAY_MAP.lookup "пн" = some 0 ∧
    (∀ (idx : Nat) (c0 c1 c2 c3 c4 c5 : String) (h m : Nat),
      pyUpper (pyStripS c0) ∈ TRUTHY →
      pyStripS c1 ≠ "" →
      pyLower (pyStripS c2) = "неделя" →
      normalize_time (pyStripS c5) = some (h, m) →
      ((∀ d, WEEKDAY_MAP.lookup (pyLower (pyStripS c4)) = some d →
          parse_row idx [c0, c1, c2, c3, c4, c5] =
            (some (.weekly (rowKey idx) (pyStripS c1) d h m), [])) ∧
        (WEEKDAY_MAP.lookup (pyLower (pyStripS c4)) = none →
          parse_row idx [c0, c1, c2, c3, c4, c5] =
            (none, [(idx, .badWeekday (pyLower (pyStripS c4)))])))) := by
  refine ⟨by decide, by decide, ?_⟩
  intro idx c0 c1 c2 c3 c4 c5 h m hst hmsg hper htime
  constructor
  · intro d hd
    simp only [parse_row]
    rw [if_pos hst, if_neg hmsg, htime]
    dsimp only
    rw [hper]
    rw [if_neg (by decide : ¬("неделя" : String) = "день")]
    rw [if_pos rfl]
    rw [hd]
  · intro hd
    simp only [parse_row]
    rw [if_pos hst, if_neg hmsg, htime]
    dsimp only
    rw [hper]
    rw [if_neg (by decide : ¬("неделя" : String) = "день")]
    rw [if_pos rfl]
    rw [hd]

/-- Witness for C8: an unknown weekday (`froday`) is rejected with the
bad-weekday reason. -/
theorem claim_C8_witness :
    parse_row 2 ["TRUE", "x", "неделя", "", "froday", "10:00"] =
      (none, [(2, .badWeekday "froday")]) :=
  ((claim_C8.2.2 2 "TRUE" "x" "неделя" "" "froday" "10:00" 10 0
    (by decide) (by decide) (by decide) (by decide)).2 (by decide)).trans (by decide)

/-! ### Claim C9 -/

/-- C9: every raw row is normalized to exactly 6 cells before parsing —
`(row + [""] * 6)[:6]` always has length 6 (so `parse_row`'s 6-cell pattern
always applies and indexing cells 0-5 cannot fault), cells beyond the 6th
are dropped, and missing cells read as the empty string. -/
theorem claim_C9 :
    ∀ row : List String,
      (pad6 row).length = 6 ∧
      (∃ a b c d e f, pad6 row = [a, b, c, d, e, f]) ∧
      (∀ i, i < 6 → (pad6 row)[i]? = some (row.getD i "")) := by
  intro row
  have hlen : (pad6 row).length = 6 := by
    unfold pad6
    rw [List.length_take, List.length_append, List.length_replicate]
    omega
  refine ⟨hlen, exists_six hlen, ?_⟩
  intro i hi
  unfold pad6
  rw [List.getElem?_take, if_pos hi, List.getElem?_append]
  by_cases hr : i < row.length
  · rw [if_pos hr, List.getElem?_eq_getElem hr,
      List.getD_eq_getElem?_getD, List.getElem?_eq_getElem hr]
    rfl
  · rw [if_neg hr, List.getElem?_replicate, if_pos (by omega),
      List.getD_eq_getElem?_getD, List.getElem?_eq_none (by omega)]
    rfl

/-- Witness for C9: a 2-cell row is padded to 6, with cell 3 empty. -/
theorem claim_C9_witness :
    (pad6 ["a", "b"]).length = 6 ∧ (pad6 ["a", "b"])[3]? = some "" :=
  ⟨(claim_C9 ["a", "b"]).1,
    ((claim_C9 ["a", "b"]).2.2 3 (by decide)).trans (by decide)⟩

end Reminders
